import Mathlib

/-!
# Verification of the portfolio RAG chatbot core

A shallow embedding of the cost-optimising query router, usage/budget
tracker, document processor and response post-processor of the portfolio
chatbot, together with proofs of the specified properties.

Strings are modelled as `List Char`.  JavaScript `number` values are
modelled as `ℚ` for costs/confidences and `ℤ`/`ℕ` for counters.  Calendar
dates (`YYYY-MM-DD` strings) are modelled as integer day numbers: the
lexicographic order on ISO date strings coincides with the numeric order
on day numbers.  Month/year pairs are modelled as integer month indices.
-/

namespace Portfolio

/- Allow the kernel-checked evaluation of rational arithmetic in concrete
examples: these Batteries definitions are `irreducible` by default, which
only affects elaboration, not the kernel. -/
attribute [local semireducible] Rat.add Rat.sub Rat.mul Rat.inv Rat.ofScientific

/-! ## Character classes

`isWordChar` models the JavaScript regex class `\w` (`[A-Za-z0-9_]`),
`isWSChar` the whitespace class `\s` (restricted to the ASCII whitespace
characters that occur in this code base). -/

def isWordChar (c : Char) : Bool :=
  c.isAlpha || c.isDigit || c = '_'

def isWSChar (c : Char) : Bool :=
  c = ' ' || c = '\t' || c = '\n' || c = '\r'

/-! ## Generic list helpers -/

theorem length_dropWhile_le (p : α → Bool) (l : List α) :
    (l.dropWhile p).length ≤ l.length := by
  induction l with
  | nil => simp [List.dropWhile]
  | cons a as ih =>
    by_cases h : p a
    · simp [List.dropWhile_cons, h]; omega
    · simp [List.dropWhile_cons, h]

theorem mem_of_mem_dropWhile {p : α → Bool} {l : List α} {x : α}
    (h : x ∈ l.dropWhile p) : x ∈ l := by
  induction l with
  | nil => simp [List.dropWhile] at h
  | cons a as ih =>
    by_cases hp : p a
    · simp [List.dropWhile_cons, hp] at h
      exact List.mem_cons_of_mem a (ih h)
    · simpa [List.dropWhile_cons, hp] using h

theorem dropWhile_eq_nil_of_all {p : α → Bool} {l : List α}
    (h : ∀ x ∈ l, p x = true) : l.dropWhile p = [] := by
  induction l with
  | nil => simp [List.dropWhile]
  | cons a as ih =>
    have ha : p a = true := h a (List.mem_cons_self a as)
    simp only [List.dropWhile_cons, ha, if_pos]
    exact ih fun x hx => h x (List.mem_cons_of_mem a hx)

theorem all_of_dropWhile_eq_nil {p : α → Bool} {l : List α}
    (h : l.dropWhile p = []) : ∀ x ∈ l, p x = true := by
  induction l with
  | nil => simp
  | cons a as ih =>
    by_cases hp : p a
    · intro x hx
      rcases List.mem_cons.mp hx with rfl | hx
      · exact hp
      · exact ih (by simpa [List.dropWhile_cons, hp] using h) x hx
    · simp [List.dropWhile_cons, hp] at h

/-! ## JS string primitives: `trim`, whitespace collapsing, splitting -/

/-- `String.prototype.trim`: drop whitespace from both ends. -/
def trimWS (s : List Char) : List Char :=
  (((s.dropWhile isWSChar).reverse.dropWhile isWSChar)).reverse

/-- Worker for `collapseWS`; the flag records whether the previous
character belonged to a whitespace run whose space was already emitted. -/
def collapseWSGo : Bool → List Char → List Char
  | _, [] => []
  | inRun, c :: cs =>
    if isWSChar c then
      if inRun then collapseWSGo true cs else ' ' :: collapseWSGo true cs
    else c :: collapseWSGo false cs

/-- `.replace(/\s+/g, ' ')`: collapse every maximal whitespace run to a
single space. -/
def collapseWS (s : List Char) : List Char :=
  collapseWSGo false s

/-- Worker for `splitRuns`; `inRun` records whether the previous character
was a separator, `acc` holds the current (reversed) piece. -/
def splitRunsGo (sep : Char → Bool) : Bool → List Char → List Char →
    List (List Char)
  | _, acc, [] => [acc.reverse]
  | inRun, acc, c :: cs =>
    if sep c then
      if inRun then splitRunsGo sep true acc cs
      else acc.reverse :: splitRunsGo sep true [] cs
    else splitRunsGo sep false (c :: acc) cs

/-- `.split(re)` for a character-class regex such as `/\s+/` or `/[.!?]+/`:
split on maximal runs of separator characters, keeping empty pieces at the
ends exactly as JavaScript does. -/
def splitRuns (sep : Char → Bool) (s : List Char) : List (List Char) :=
  splitRunsGo sep false [] s

/-- `.split(' ')`: split on every single space character. -/
def splitEachSpace : List Char → List Char → List (List Char)
  | acc, [] => [acc.reverse]
  | acc, c :: cs =>
    if c = ' ' then acc.reverse :: splitEachSpace [] cs
    else splitEachSpace (c :: acc) cs

/-- Worker for `dedupFirst`, carrying the set of values seen so far. -/
def dedupFirstGo (seen : List (List Char)) : List (List Char) →
    List (List Char)
  | [] => []
  | x :: xs =>
    if seen.contains x then dedupFirstGo seen xs
    else x :: dedupFirstGo (x :: seen) xs

/-- Keep-first deduplication, modelling `[...new Set(xs)]`. -/
def dedupFirst (l : List (List Char)) : List (List Char) :=
  dedupFirstGo [] l

/-- Substring test, modelling `String.prototype.includes`. -/
def startsWithSeq : List Char → List Char → Bool
  | [], _ => true
  | _ :: _, [] => false
  | a :: as, b :: bs => a == b && startsWithSeq as bs

def occursIn (pat : List Char) : List Char → Bool
  | [] => startsWithSeq pat []
  | c :: cs => startsWithSeq pat (c :: cs) || occursIn pat cs

theorem mem_of_startsWithSeq {pat s : List Char}
    (h : startsWithSeq pat s = true) : ∀ c ∈ pat, c ∈ s := by
  induction pat generalizing s with
  | nil => simp
  | cons a as ih =>
    cases s with
    | nil => simp [startsWithSeq] at h
    | cons b bs =>
      simp only [startsWithSeq, Bool.and_eq_true, beq_iff_eq] at h
      intro c hc
      rcases List.mem_cons.mp hc with rfl | hc
      · exact h.1 ▸ List.mem_cons_self _ _
      · exact List.mem_cons_of_mem _ (ih h.2 c hc)

theorem mem_of_occursIn {pat s : List Char}
    (h : occursIn pat s = true) : ∀ c ∈ pat, c ∈ s := by
  induction s with
  | nil =>
    simp only [occursIn] at h
    intro c hc
    exact absurd hc (by simpa using mem_of_startsWithSeq h c)
  | cons b bs ih =>
    simp only [occursIn, Bool.or_eq_true] at h
    rcases h with h | h
    · exact mem_of_startsWithSeq h
    · exact fun c hc => List.mem_cons_of_mem _ (ih h c hc)

/-! ## Stable insertion sort (models `Array.prototype.sort` with a
numeric comparator, which is required to be a stable sort). -/

section Sorting

variable {α : Type} {K : Type} [LinearOrder K]

def insSorted (key : α → K) (x : α) : List α → List α
  | [] => [x]
  | y :: ys => if key y < key x then y :: insSorted key x ys else x :: y :: ys

def sortAsc (key : α → K) : List α → List α
  | [] => []
  | x :: xs => insSorted key x (sortAsc key xs)

theorem mem_insSorted (key : α → K) (x a : α) (l : List α) :
    a ∈ insSorted key x l ↔ a = x ∨ a ∈ l := by
  induction l with
  | nil => simp [insSorted]
  | cons y ys ih =>
    by_cases h : key y < key x
    · simp only [insSorted, if_pos h, List.mem_cons, ih]
      tauto
    · simp only [insSorted, if_neg h, List.mem_cons]

theorem mem_sortAsc (key : α → K) (a : α) (l : List α) :
    a ∈ sortAsc key l ↔ a ∈ l := by
  induction l with
  | nil => simp [sortAsc]
  | cons x xs ih =>
    simp [sortAsc, mem_insSorted, ih]

theorem pairwise_insSorted (key : α → K) (x : α) {l : List α}
    (h : l.Pairwise (fun a b => key a ≤ key b)) :
    (insSorted key x l).Pairwise (fun a b => key a ≤ key b) := by
  induction l with
  | nil => simp [insSorted]
  | cons y ys ih =>
    rcases List.pairwise_cons.mp h with ⟨hy, hys⟩
    by_cases hlt : key y < key x
    · simp only [insSorted, if_pos hlt]
      refine List.pairwise_cons.mpr ⟨?_, ih hys⟩
      intro b hb
      rcases (mem_insSorted key x b ys).mp hb with rfl | hb
      · exact le_of_lt hlt
      · exact hy b hb
    · simp only [insSorted, if_neg hlt]
      refine List.pairwise_cons.mpr ⟨?_, h⟩
      intro b hb
      rcases List.mem_cons.mp hb with rfl | hb
      · exact le_of_not_lt hlt
      · exact le_trans (le_of_not_lt hlt) (hy b hb)

theorem pairwise_sortAsc (key : α → K) (l : List α) :
    (sortAsc key l).Pairwise (fun a b => key a ≤ key b) := by
  induction l with
  | nil => simp [sortAsc]
  | cons x xs ih => exact pairwise_insSorted key x ih

end Sorting

/-! ## Usage ledger (`src/lib/tokenTracker.ts`)

The browser `localStorage` cell holding the usage record is modelled as an
explicit `Option TokenUsage` value that is threaded through the operations
(`none` = nothing stored yet).  The ambient wall clock is a `Clock` record:
`today` is the current day number (standing for `getTodayString()`, the
`YYYY-MM-DD` part of `new Date().toISOString()`) and `month` the current
month index (standing for the month/year pair used by `shouldResetUsage`).
The `operation`/`route` arguments of `addTokens` only feed the transaction
log, which no claim mentions, so they are not modelled. -/

structure DailyUsage where
  date : ℤ
  tokens : ℤ
  cost : ℚ
  requests : ℤ
deriving DecidableEq

structure TokenUsage where
  totalTokens : ℤ
  totalCost : ℚ
  requestCount : ℤ
  lastReset : ℤ
  dailyUsage : List DailyUsage
deriving DecidableEq

structure BudgetLimits where
  monthlyBudget : ℚ
  dailyBudget : ℚ
  maxTokensPerRequest : ℤ
  maxRequestsPerDay : ℤ
  warningThreshold : ℚ
deriving DecidableEq

structure Clock where
  today : ℤ
  month : ℤ
deriving DecidableEq

/-- `initializeUsage()` / the record built by `resetMonthlyUsage()`:
fresh counters, `lastReset` stamped with the current time. -/
def initializeUsage (clock : Clock) : TokenUsage :=
  { totalTokens := 0, totalCost := 0, requestCount := 0
    lastReset := clock.month, dailyUsage := [] }

/-- `shouldResetUsage(lastReset)`: the stored reset stamp falls in a
different calendar month/year than now. -/
def shouldResetUsage (clock : Clock) (lastReset : ℤ) : Bool :=
  lastReset != clock.month

/-- `getCurrentUsage()`: read the stored record, lazily resetting it when
the month has rolled over; absent storage yields a fresh record. -/
def getCurrentUsage (clock : Clock) (store : Option TokenUsage) : TokenUsage :=
  match store with
  | none => initializeUsage clock
  | some usage =>
    if shouldResetUsage clock usage.lastReset then initializeUsage clock
    else usage

/-- `usage.dailyUsage.find(day => day.date === today)`. -/
def findTodayBucket (usage : TokenUsage) (today : ℤ) : Option DailyUsage :=
  usage.dailyUsage.find? (fun d => d.date == today)

/-- `todayUsage?.cost || 0`. -/
def todayBucketCost (usage : TokenUsage) (today : ℤ) : ℚ :=
  ((findTodayBucket usage today).map DailyUsage.cost).getD 0

/-- `todayUsage?.requests || 0`. -/
def todayBucketRequests (usage : TokenUsage) (today : ℤ) : ℤ :=
  ((findTodayBucket usage today).map DailyUsage.requests).getD 0

/-- `isWithinDays(day.date, 31)`: the bucket date is not before the cutoff
31 days ago. -/
def isWithinDays (clock : Clock) (date days : ℤ) : Bool :=
  decide (clock.today - days ≤ date)

/-- `canMakeRequest(estimatedTokens, estimatedCost)`.  The `limits`
parameter stands for the result of `getBudgetLimits()`. -/
def canMakeRequest (clock : Clock) (store : Option TokenUsage)
    (limits : BudgetLimits) (estimatedTokens : ℤ) (estimatedCost : ℚ) : Bool :=
  let usage := getCurrentUsage clock store
  if limits.monthlyBudget < usage.totalCost + estimatedCost then false
  else if limits.dailyBudget < todayBucketCost usage clock.today + estimatedCost then false
  else if limits.maxRequestsPerDay ≤ todayBucketRequests usage clock.today then false
  else if limits.maxTokensPerRequest < estimatedTokens then false
  else true

/-- In-place mutation of the first bucket found by
`dailyUsage.find(day => day.date === today)`. -/
def bumpTodayBucket (today : ℤ) (tokens : ℤ) (cost : ℚ) :
    List DailyUsage → List DailyUsage
  | [] => []
  | d :: ds =>
    if d.date == today then
      { d with tokens := d.tokens + tokens, cost := d.cost + cost
               requests := d.requests + 1 } :: ds
    else d :: bumpTodayBucket today tokens cost ds

/-- The success path of `addTokens(tokens, cost, ...)`: bump the monthly
totals, add to (or create) today's bucket, prune buckets older than 31
days and sort the buckets by date (`a.date.localeCompare(b.date)` on ISO
date strings is the numeric day order). -/
def recordUsage (clock : Clock) (u0 : TokenUsage)
    (tokens : ℤ) (cost : ℚ) : TokenUsage :=
  let u1 : TokenUsage :=
    { u0 with totalTokens := u0.totalTokens + tokens
              totalCost := u0.totalCost + cost
              requestCount := u0.requestCount + 1 }
  let daily :=
    match findTodayBucket u1 clock.today with
    | some _ => bumpTodayBucket clock.today tokens cost u1.dailyUsage
    | none =>
      u1.dailyUsage ++
        [({ date := clock.today, tokens := tokens
            cost := cost, requests := 1 } : DailyUsage)]
  let pruned := daily.filter (fun d => isWithinDays clock d.date 31)
  let sorted := sortAsc (fun d => d.date) pruned
  { u1 with dailyUsage := sorted }

/-- `addTokens(tokens, cost, ...)`: validates its arguments, performs the
read-modify-write cycle of `recordUsage` and persists the result.
Returns the outcome together with the resulting storage cell; the reject
path throws before anything is read or written. -/
def addTokens (clock : Clock) (store : Option TokenUsage)
    (tokens : ℤ) (cost : ℚ) :
    Except (List Char) TokenUsage × Option TokenUsage :=
  if tokens < 0 ∨ cost < 0 then
    (Except.error "Tokens and cost must be non-negative".toList, store)
  else
    let u2 := recordUsage clock (getCurrentUsage clock store) tokens cost
    (Except.ok u2, some u2)

theorem recordUsage_dailyUsage (clock : Clock) (u0 : TokenUsage)
    (tokens : ℤ) (cost : ℚ) :
    ∃ l : List DailyUsage, (recordUsage clock u0 tokens cost).dailyUsage =
      sortAsc (fun d => d.date)
        (l.filter (fun d => isWithinDays clock d.date 31)) :=
  ⟨_, rfl⟩

/-- `Except.isOk`, named locally to keep the development self-contained. -/
def exceptOk : Except (List Char) TokenUsage → Bool
  | Except.ok _ => true
  | Except.error _ => false

/-- C1: `canMakeRequest` is true exactly when all four budget conditions
hold on the current usage state: monthly cost + estimate within the
monthly budget, today's bucket cost + estimate within the daily budget,
today's request count strictly below the daily request limit, and the
token estimate within the per-request token limit. -/
theorem canMakeRequest_iff (clock : Clock) (store : Option TokenUsage)
    (limits : BudgetLimits) (estimatedTokens : ℤ) (estimatedCost : ℚ) :
    canMakeRequest clock store limits estimatedTokens estimatedCost = true ↔
      ((getCurrentUsage clock store).totalCost + estimatedCost ≤ limits.monthlyBudget ∧
       todayBucketCost (getCurrentUsage clock store) clock.today + estimatedCost ≤
         limits.dailyBudget ∧
       todayBucketRequests (getCurrentUsage clock store) clock.today <
         limits.maxRequestsPerDay ∧
       estimatedTokens ≤ limits.maxTokensPerRequest) := by
  unfold canMakeRequest
  by_cases h1 : limits.monthlyBudget <
      (getCurrentUsage clock store).totalCost + estimatedCost
  · simp only [h1, if_pos]
    constructor
    · intro h; exact absurd h (by simp)
    · rintro ⟨hm, -, -, -⟩; exact absurd h1 (not_lt.mpr hm)
  · by_cases h2 : limits.dailyBudget <
        todayBucketCost (getCurrentUsage clock store) clock.today + estimatedCost
    · simp only [h1, if_neg, h2, if_pos]
      constructor
      · intro h; exact absurd h (by simp)
      · rintro ⟨-, hd, -, -⟩; exact absurd h2 (not_lt.mpr hd)
    · by_cases h3 : limits.maxRequestsPerDay ≤
          todayBucketRequests (getCurrentUsage clock store) clock.today
      · simp only [h1, if_neg, h2, h3, if_pos]
        constructor
        · intro h; exact absurd h (by simp)
        · rintro ⟨-, -, hr, -⟩; exact absurd h3 (not_le.mpr hr)
      · by_cases h4 : limits.maxTokensPerRequest < estimatedTokens
        · simp only [h1, if_neg, h2, h3, h4, if_pos]
          constructor
          · intro h; exact absurd h (by simp)
          · rintro ⟨-, -, -, ht⟩; exact absurd h4 (not_lt.mpr ht)
        · simp only [h1, if_neg, h2, h3, h4, if_neg]
          exact ⟨fun _ => ⟨not_lt.mp h1, not_lt.mp h2, not_le.mp h3, not_lt.mp h4⟩,
                 fun _ => rfl⟩

/-- C3: after any successful `addTokens` call, no daily bucket is older
than 31 days before today — in particular a bucket dated 35 days ago is
gone — and the buckets are sorted ascending by date. -/
theorem addTokens_prunes_and_sorts (clock : Clock) (store : Option TokenUsage)
    (tokens : ℤ) (cost : ℚ) (u : TokenUsage)
    (h : (addTokens clock store tokens cost).1 = Except.ok u) :
    (∀ b ∈ u.dailyUsage, clock.today - 31 ≤ b.date) ∧
    (∀ b ∈ u.dailyUsage, b.date ≠ clock.today - 35) ∧
    u.dailyUsage.Pairwise (fun a b => a.date ≤ b.date) := by
  unfold addTokens at h
  by_cases hneg : tokens < 0 ∨ cost < 0
  · rw [if_pos hneg] at h
    exact absurd h (by simp)
  · rw [if_neg hneg] at h
    have hrec : recordUsage clock (getCurrentUsage clock store) tokens cost = u :=
      Except.ok.inj h
    obtain ⟨l, hl⟩ :=
      recordUsage_dailyUsage clock (getCurrentUsage clock store) tokens cost
    rw [hrec] at hl
    refine ⟨?_, ?_, ?_⟩
    · intro b hb
      rw [hl] at hb
      have hb' := (mem_sortAsc _ b _).mp hb
      have := (List.mem_filter.mp hb').2
      simpa [isWithinDays] using this
    · intro b hb
      rw [hl] at hb
      have hb' := (mem_sortAsc _ b _).mp hb
      have hkeep := (List.mem_filter.mp hb').2
      simp only [isWithinDays, decide_eq_true_eq] at hkeep
      intro heq
      omega
    · rw [hl]
      exact pairwise_sortAsc _ _

/-- C10: `addTokens` fails exactly on a negative `tokens` or `cost`
argument, and in that case the stored usage record is untouched. -/
theorem addTokens_error_iff_negative (clock : Clock) (store : Option TokenUsage)
    (tokens : ℤ) (cost : ℚ) :
    (exceptOk (addTokens clock store tokens cost).1 = false ↔
      tokens < 0 ∨ cost < 0) ∧
    (exceptOk (addTokens clock store tokens cost).1 = false →
      (addTokens clock store tokens cost).2 = store) := by
  by_cases hneg : tokens < 0 ∨ cost < 0
  · constructor
    · simp [addTokens, hneg, exceptOk]
    · intro _
      simp [addTokens, hneg]
  · constructor
    · simp [addTokens, hneg, exceptOk]
    · intro hcontra
      simp [addTokens, hneg, exceptOk] at hcontra

/-- Demonstration ledger for the pruning witness: a single bucket dated
35 days before "today" (day 100). -/
def demoStaleUsage : TokenUsage :=
  { totalTokens := 7, totalCost := 1/100, requestCount := 1, lastReset := 5
    dailyUsage := [{ date := 65, tokens := 7, cost := 1/100, requests := 1 }] }

/-- Expected ledger after recording 2 tokens at zero cost on day 100: the
stale bucket is pruned and only today's bucket remains. -/
def demoFreshUsage : TokenUsage :=
  { totalTokens := 9, totalCost := 1/100, requestCount := 2, lastReset := 5
    dailyUsage := [{ date := 100, tokens := 2, cost := 0, requests := 1 }] }

theorem addTokens_prunes_and_sorts_witness :
    (addTokens ⟨100, 5⟩ (some demoStaleUsage) 2 0).1 = Except.ok demoFreshUsage ∧
    ((∀ b ∈ demoFreshUsage.dailyUsage, (100 : ℤ) - 31 ≤ b.date) ∧
     (∀ b ∈ demoFreshUsage.dailyUsage, b.date ≠ (100 : ℤ) - 35) ∧
     demoFreshUsage.dailyUsage.Pairwise (fun a b => a.date ≤ b.date)) :=
  ⟨by rfl,
   addTokens_prunes_and_sorts ⟨100, 5⟩ (some demoStaleUsage) 2 0 demoFreshUsage
     (by rfl)⟩

theorem addTokens_error_iff_negative_witness :
    exceptOk (addTokens ⟨100, 5⟩ (some demoStaleUsage) (-1) 0).1 = false ∧
    (addTokens ⟨100, 5⟩ (some demoStaleUsage) (-1) 0).2 = some demoStaleUsage :=
  ⟨(addTokens_error_iff_negative ⟨100, 5⟩ (some demoStaleUsage) (-1) 0).1.mpr
     (Or.inl (by decide)),
   (addTokens_error_iff_negative ⟨100, 5⟩ (some demoStaleUsage) (-1) 0).2
     ((addTokens_error_iff_negative ⟨100, 5⟩ (some demoStaleUsage) (-1) 0).1.mpr
       (Or.inl (by decide)))⟩

/-! ## Query router (`src/lib/queryRouter.ts`)

Queries are `List Char`.  The analysis produced by `analyzeQuery` is the
`QueryAnalysis` record; routing only reads its fields, so the analysis is
taken as an input here. -/

inductive Route
  | exact
  | keyword
  | category
  | full
  | reject
deriving DecidableEq

inductive QueryType
  | personal
  | technical
  | contact
  | experience
  | general
deriving DecidableEq

structure CategoryMatch where
  category : List Char
  confidence : ℚ
  matchedTerms : List (List Char)
deriving DecidableEq

structure QueryAnalysis where
  isPortfolioRelated : Bool
  detectedCategories : List CategoryMatch
  confidence : ℚ
  suggestedRoute : Route
  extractedKeywords : List (List Char)
  queryType : QueryType
deriving DecidableEq

structure RoutingDecision where
  route : Route
  category : Option (List Char)
  keywords : Option (List (List Char))
  reasoning : List Char
  estimatedCost : ℚ
deriving DecidableEq

structure ExactMatch where
  question : List Char
  answer : List Char
  category : List Char
  keywords : List (List Char)
deriving DecidableEq

/-- `normalizeForMatching(text)`: lowercase, turn every character outside
`\w` and `\s` into a space, collapse whitespace runs, trim. -/
def normalizeForMatching (s : List Char) : List Char :=
  trimWS (collapseWS ((s.map Char.toLower).map
    (fun c => if isWordChar c || isWSChar c then c else ' ')))

/-- The stop-word set of `extractQueryKeywords`. -/
def stopWords : List (List Char) :=
  ["the", "a", "an", "and", "or", "but", "in", "on", "at", "to", "for",
   "of", "with", "by", "from", "about", "what", "how", "when", "where",
   "who", "why", "which", "is", "are", "was", "were", "be", "been",
   "being", "have", "has", "had", "do", "does", "did", "will", "would",
   "could", "should", "can", "may", "might"].map String.toList

/-- `extractQueryKeywords(query)`: lowercase, replace `[^\w\s]` by spaces,
split on whitespace, keep words longer than two characters that are
neither stop words nor all-digit, cap at ten. -/
def extractQueryKeywords (query : List Char) : List (List Char) :=
  let replaced := (query.map Char.toLower).map
    (fun c => if isWordChar c || isWSChar c then c else ' ')
  let words := splitRuns isWSChar replaced
  (words.filter (fun w =>
    decide (2 < w.length) && !(stopWords.contains w) &&
    !(!w.isEmpty && w.all Char.isDigit))).take 10

/-- `calculateStringSimilarity(str1, str2)`: token-overlap ratio of the
space-separated word multisets (`intersection.length / union.length`,
the union counted as a set). -/
def calculateStringSimilarity (s1 s2 : List Char) : ℚ :=
  let words1 := splitEachSpace [] s1
  let words2 := splitEachSpace [] s2
  let inter := words1.filter (fun w => words2.contains w)
  let uni := dedupFirst (words1 ++ words2)
  (inter.length : ℚ) / (uni.length : ℚ)

/-- `EXACT_MATCHES[0]`. -/
def matchWhoAreYou : ExactMatch :=
  { question := "who are you".toList
    answer := ("I\x27m Marvin Romero\x27s portfolio assistant! I can tell " ++
      "you about his background, skills, projects, and experience. What " ++
      "would you like to know about Marvin?").toList
    category := "BIO".toList
    keywords := ["who", "you", "assistant", "marvin"].map String.toList }

/-- `EXACT_MATCHES[1]`. -/
def matchYourName : ExactMatch :=
  { question := "what is your name".toList
    answer := ("I\x27m Marv, Marvin Romero\x27s portfolio assistant. " ++
      "I\x27m here to help you learn about his background and work!").toList
    category := "BIO".toList
    keywords := ["name", "who", "marvin", "marv"].map String.toList }

/-- `EXACT_MATCHES[2]`, the canonical contact entry. -/
def matchContactMarvin : ExactMatch :=
  { question := "how can i contact marvin".toList
    answer := ("You can reach Marvin at marv.a.romero05@gmail.com or " ++
      "connect with him on LinkedIn at linkedin.com/in/marvin-romero. " ++
      "He\x27s also on GitHub at github.com/marvcodething.").toList
    category := "CONTACT".toList
    keywords := ["contact", "email", "reach", "hire", "linkedin",
      "github"].map String.toList }

/-- `EXACT_MATCHES[3]`. -/
def matchProgrammingLanguages : ExactMatch :=
  { question := "what programming languages does marvin know".toList
    answer := ("Marvin is skilled in JavaScript/TypeScript, Python, " ++
      "Java, C#, and SQL. He works with modern frameworks like React, " ++
      "Next.js, Node.js, and Flask.").toList
    category := "SKILLS".toList
    keywords := ["programming", "languages", "skills", "javascript",
      "python", "react"].map String.toList }

/-- `EXACT_MATCHES[4]`. -/
def matchWhereWork : ExactMatch :=
  { question := "where does marvin work".toList
    answer := ("Marvin has recent experience as a Software Engineering " ++
      "Intern at DOJi working on MarketCanvas, and at Occidental " ++
      "College\x27s Biochemistry Department. He\x27s also Co-Founder and " ++
      "CTO of The Confracted Company.").toList
    category := "EXPERIENCE".toList
    keywords := ["work", "job", "experience", "doji", "occidental",
      "confracted"].map String.toList }

/-- `EXACT_MATCHES[5]`. -/
def matchAvailableForHire : ExactMatch :=
  { question := "is marvin available for hire".toList
    answer := ("Yes! Marvin is actively seeking opportunities. You can " ++
      "contact him at marv.a.romero05@gmail.com to discuss potential " ++
      "roles or projects.").toList
    category := "CONTACT".toList
    keywords := ["hire", "available", "opportunities", "job", "work",
      "contact"].map String.toList }

/-- The curated `EXACT_MATCHES` table, in source order. -/
def EXACT_MATCHES : List ExactMatch :=
  [matchWhoAreYou, matchYourName, matchContactMarvin,
   matchProgrammingLanguages, matchWhereWork, matchAvailableForHire]

/-- `getExactMatch(query)`: guard against blank input, then three
escalating strategies — exact normalized equality, token-overlap
similarity above 0.8, and keyword overlap of at least
`Math.ceil(totalKeywords * 0.6)` of a canonical entry's keywords.  The
first entry hit by the first succeeding strategy wins. -/
def getExactMatch (query : List Char) : Option ExactMatch :=
  if (trimWS query).isEmpty then none
  else
    let nq := normalizeForMatching query
    match EXACT_MATCHES.find? (fun m => normalizeForMatching m.question == nq) with
    | some m => some m
    | none =>
      match EXACT_MATCHES.find? (fun m =>
          decide ((0.8 : ℚ) < calculateStringSimilarity nq
            (normalizeForMatching m.question))) with
      | some m => some m
      | none =>
        let queryKeywords := extractQueryKeywords nq
        EXACT_MATCHES.find? (fun m =>
          let matchScore :=
            (queryKeywords.filter (fun kw => m.keywords.contains kw)).length
          decide ((⌈(m.keywords.length : ℚ) * 0.6⌉ : ℤ) ≤ (matchScore : ℤ)))

structure CatPattern where
  keywords : List (List Char)
  phrases : List (List Char)
  weight : ℚ
deriving DecidableEq

/-- The `CATEGORY_PATTERNS` table, in source (insertion) order. -/
def CATEGORY_PATTERNS : List (List Char × CatPattern) :=
  [("BIO".toList,
    { keywords := ["bio", "about", "background", "personal", "story",
        "marvin", "romero", "who"].map String.toList
      phrases := ["tell me about", "who is", "what is",
        "background of"].map String.toList
      weight := 1.0 }),
   ("CONTACT".toList,
    { keywords := ["contact", "email", "phone", "reach", "hire",
        "available", "linkedin", "github", "social"].map String.toList
      phrases := ["how to contact", "get in touch", "reach out",
        "hire marvin", "contact information"].map String.toList
      weight := 1.2 }),
   ("SKILLS".toList,
    { keywords := ["skills", "programming", "languages", "tech",
        "technical", "technologies", "tools", "frameworks"].map String.toList
      phrases := ["what skills", "programming languages",
        "technical skills", "technologies used"].map String.toList
      weight := 1.1 }),
   ("EXPERIENCE".toList,
    { keywords := ["experience", "work", "job", "career", "intern",
        "internship", "employment", "company", "role"].map String.toList
      phrases := ["work experience", "previous jobs", "career history",
        "where worked"].map String.toList
      weight := 1.1 }),
   ("PROJECTS".toList,
    { keywords := ["projects", "built", "created", "developed", "made",
        "portfolio", "work", "app", "website"].map String.toList
      phrases := ["what projects", "things built", "portfolio projects",
        "apps created"].map String.toList
      weight := 1.0 }),
   ("EDUCATION".toList,
    { keywords := ["education", "school", "college", "university",
        "degree", "studied", "occidental"].map String.toList
      phrases := ["where studied", "educational background",
        "college experience"].map String.toList
      weight := 0.9 }),
   ("ACHIEVEMENTS".toList,
    { keywords := ["achievements", "awards", "recognition",
        "accomplishments", "honors"].map String.toList
      phrases := ["achievements earned", "awards received"].map String.toList
      weight := 0.8 }),
   ("LEADERSHIP".toList,
    { keywords := ["leadership", "volunteer", "organizations",
        "activities", "lead", "mentor"].map String.toList
      phrases := ["leadership experience", "volunteer work"].map String.toList
      weight := 0.8 }),
   ("INTERESTS".toList,
    { keywords := ["interests", "hobbies", "personal", "outside", "free",
        "time"].map String.toList
      phrases := ["personal interests", "outside work",
        "free time"].map String.toList
      weight := 0.7 })]

/-- The raw hit count of a category pattern against a query: one point
per matched keyword, two per matched phrase (`query.includes(...)` is the
substring test). -/
def catRawScore (query : List Char) (pat : CatPattern) : ℕ :=
  (pat.keywords.filter (fun kw => occursIn kw query)).length +
    2 * (pat.phrases.filter (fun ph => occursIn ph query)).length

/-- The `matchedTerms` accumulated by the `detectCategories` loop: the
matched keywords followed by the matched phrases, in table order. -/
def catMatchedTerms (query : List Char) (pat : CatPattern) :
    List (List Char) :=
  pat.keywords.filter (fun kw => occursIn kw query) ++
    pat.phrases.filter (fun ph => occursIn ph query)

/-- The per-category body of the `detectCategories` loop: score keyword
hits (weight 1) and phrase hits (weight 2), multiply by the category
weight, and keep the category only when the score is strictly positive,
with confidence `Math.min(1.0, score / 3)`. -/
def detectEntry (query : List Char) (cp : List Char × CatPattern) :
    Option CategoryMatch :=
  let score : ℚ := (catRawScore query cp.2 : ℚ) * cp.2.weight
  if 0 < score then
    some { category := cp.1, confidence := min 1 (score / 3)
           matchedTerms := catMatchedTerms query cp.2 }
  else none

/-- `detectCategories(query)`: run `detectEntry` over every category in
table order and sort descending by confidence (the stable
`sort((a, b) => b.confidence - a.confidence)`). -/
def detectCategories (query : List Char) : List CategoryMatch :=
  sortAsc (fun cm => -cm.confidence)
    (CATEGORY_PATTERNS.filterMap (detectEntry query))

/-- `shouldUseCategory(categoryMatches, confidenceThreshold)`: the top
match must reach the threshold and lead the runner-up by more than 0.3
(or be the only match). -/
def shouldUseCategory (categoryMatches : List CategoryMatch)
    (confidenceThreshold : ℚ) : Bool :=
  match categoryMatches with
  | [] => false
  | top :: rest =>
    let hasHighConfidence := decide (confidenceThreshold ≤ top.confidence)
    let hasStrongLead :=
      match rest with
      | [] => true
      | second :: _ => decide ((0.3 : ℚ) < top.confidence - second.confidence)
    hasHighConfidence && hasStrongLead

/-- `makeRoutingDecision(query, analysis)`: the progressive cascade —
reject out-of-scope queries, then exact match, then the zero-cost keyword
gate, then category search, defaulting to full search. -/
def makeRoutingDecision (query : List Char) (analysis : QueryAnalysis) :
    RoutingDecision :=
  if !analysis.isPortfolioRelated then
    { route := Route.reject, category := none, keywords := none
      reasoning := "Query is not portfolio-related".toList
      estimatedCost := 0 }
  else
    match getExactMatch query with
    | some _ =>
      { route := Route.exact, category := none, keywords := none
        reasoning := "Exact match found for common question".toList
        estimatedCost := 0 }
    | none =>
      if 0 < analysis.extractedKeywords.length ∧ analysis.confidence < 0.4 then
        { route := Route.keyword, category := none
          keywords := some analysis.extractedKeywords
          reasoning := "Low confidence query, trying keyword search first".toList
          estimatedCost := 0 }
      else if shouldUseCategory analysis.detectedCategories 0.6 then
        match analysis.detectedCategories with
        | top :: _ =>
          { route := Route.category, category := some top.category
            keywords := none
            reasoning := ("High confidence match for ".toList ++
              top.category ++ " category".toList)
            estimatedCost := 0.001 }
        | [] =>
          -- `shouldUseCategory [] _ = false`, so this `detectedCategories[0]`
          -- access is unreachable.
          { route := Route.full, category := none, keywords := none
            reasoning := "Ambiguous query requires full database search".toList
            estimatedCost := 0.002 }
      else
        { route := Route.full, category := none, keywords := none
          reasoning := "Ambiguous query requires full database search".toList
          estimatedCost := 0.002 }

/-! ### Auxiliary facts about normalization -/

theorem ws_toLower {c : Char} (h : isWSChar c = true) : Char.toLower c = c := by
  simp only [isWSChar, Bool.or_eq_true, decide_eq_true_eq] at h
  rcases h with ⟨⟨h | h⟩ | h⟩ | h <;> subst h <;> decide

theorem collapseWSGo_true_allWS {s : List Char}
    (h : ∀ c ∈ s, isWSChar c = true) : collapseWSGo true s = [] := by
  induction s with
  | nil => rfl
  | cons c cs ih =>
    have hc : isWSChar c = true := h c (List.mem_cons_self c cs)
    simp only [collapseWSGo, hc, if_pos, if_true]
    exact ih fun x hx => h x (List.mem_cons_of_mem c hx)

theorem trimWS_collapseWS_allWS {s : List Char}
    (h : ∀ c ∈ s, isWSChar c = true) : trimWS (collapseWS s) = [] := by
  cases s with
  | nil => decide
  | cons c cs =>
    have hc : isWSChar c = true := h c (List.mem_cons_self c cs)
    have hrest : collapseWSGo true cs = [] :=
      collapseWSGo_true_allWS fun x hx => h x (List.mem_cons_of_mem c hx)
    simp only [collapseWS, collapseWSGo, hc, if_pos, Bool.false_eq_true,
      if_false, hrest]
    decide

theorem allWS_of_trimWS_eq_nil {s : List Char} (h : trimWS s = []) :
    ∀ c ∈ s, isWSChar c = true := by
  unfold trimWS at h
  have h1 : (s.dropWhile isWSChar).reverse.dropWhile isWSChar = [] := by
    have := congrArg List.reverse h
    simpa using this
  have h2 : ∀ c ∈ (s.dropWhile isWSChar).reverse, isWSChar c = true :=
    all_of_dropWhile_eq_nil h1
  have h3 : ∀ c ∈ s.dropWhile isWSChar, isWSChar c = true := by
    intro c hc
    exact h2 c (List.mem_reverse.mpr hc)
  intro c hc
  rw [← List.takeWhile_append_dropWhile (p := isWSChar) (l := s)] at hc
  rcases List.mem_append.mp hc with hc | hc
  · exact List.mem_takeWhile_imp hc
  · exact h3 c hc

theorem trimWS_not_empty_of_normalize {s t : List Char}
    (h : normalizeForMatching s = t) (ht : t ≠ []) :
    (trimWS s).isEmpty = false := by
  rcases hEmpty : (trimWS s).isEmpty with _ | _
  · rfl
  · exfalso
    have hnil : trimWS s = [] := List.isEmpty_iff.mp hEmpty
    have hws := allWS_of_trimWS_eq_nil hnil
    have hmapped : ∀ c ∈ (s.map Char.toLower).map
        (fun c => if isWordChar c || isWSChar c then c else ' '),
        isWSChar c = true := by
      intro c hc
      simp only [List.mem_map] at hc
      obtain ⟨c1, ⟨c0, hc0, rfl⟩, rfl⟩ := hc
      have hw : isWSChar c0 = true := hws c0 hc0
      rw [ws_toLower hw, hw]
      simp [hw]
    have : normalizeForMatching s = [] := trimWS_collapseWS_allWS hmapped
    exact ht (h ▸ this.symm ▸ this)

/-! ### C2: out-of-scope queries are rejected at zero cost -/

/-- C2: whenever the analysis marks the query as not portfolio-related,
`makeRoutingDecision` takes the terminal reject branch: route `reject`,
estimated cost 0, independent of the exact-match table, keyword gate,
category gate, or full search. -/
theorem makeRoutingDecision_reject (query : List Char) (analysis : QueryAnalysis)
    (h : analysis.isPortfolioRelated = false) :
    (makeRoutingDecision query analysis).route = Route.reject ∧
    (makeRoutingDecision query analysis).estimatedCost = 0 := by
  unfold makeRoutingDecision
  rw [h]
  exact ⟨rfl, rfl⟩

/-- An out-of-scope analysis, as `analyzeQuery` produces in strict mode. -/
def demoOutOfScope : QueryAnalysis :=
  { isPortfolioRelated := false, detectedCategories := [], confidence := 1
    suggestedRoute := Route.reject, extractedKeywords := []
    queryType := QueryType.general }

theorem makeRoutingDecision_reject_witness :
    (makeRoutingDecision "what is the weather today".toList demoOutOfScope).route =
      Route.reject ∧
    (makeRoutingDecision "what is the weather today".toList demoOutOfScope).estimatedCost
      = 0 :=
  makeRoutingDecision_reject "what is the weather today".toList demoOutOfScope rfl

/-! ### C4: the exact-match gate on contact-question variants -/

/-- An in-scope analysis with no detected signals, as used to drive the
router on queries whose classification does not matter. -/
def demoInScope : QueryAnalysis :=
  { isPortfolioRelated := true, detectedCategories := [], confidence := 1
    suggestedRoute := Route.full, extractedKeywords := []
    queryType := QueryType.general }

set_option maxRecDepth 20000 in
/-- C4 counterexample: `"how can i contact mar.vin"` differs from the
canonical question only by an inserted punctuation character, yet the
exact-match lookup fails on it (normalization splits `marvin` into two
words, fuzzy similarity is 4/7 < 0.8, and only one of the six entry
keywords matches), so the router does not take the exact route. -/
theorem getExactMatch_contact_variants_counterexample :
    getExactMatch "how can i contact mar.vin".toList = none ∧
    (makeRoutingDecision "how can i contact mar.vin".toList demoInScope).route ≠
      Route.exact := by
  constructor
  · decide
  · decide

set_option maxRecDepth 20000 in
/-- C4 (amended): for every query whose normalization (lowercasing,
punctuation replaced by spaces, whitespace collapsed and trimmed) equals
the canonical `"how can i contact marvin"` — i.e. every case or
punctuation variant that does not split or merge a word — `getExactMatch`
returns the pre-defined CONTACT entry, and on any in-scope analysis
`makeRoutingDecision` returns route `exact` at estimated cost 0. -/
theorem getExactMatch_contact_variants (query : List Char)
    (h : normalizeForMatching query = "how can i contact marvin".toList) :
    getExactMatch query = some matchContactMarvin ∧
    ∀ analysis : QueryAnalysis, analysis.isPortfolioRelated = true →
      (makeRoutingDecision query analysis).route = Route.exact ∧
      (makeRoutingDecision query analysis).estimatedCost = 0 := by
  have hne : (trimWS query).isEmpty = false :=
    trimWS_not_empty_of_normalize h (by decide)
  have hexact : getExactMatch query = some matchContactMarvin := by
    unfold getExactMatch
    simp only [hne, Bool.false_eq_true, if_false, h]
    decide
  refine ⟨hexact, fun analysis ha => ?_⟩
  unfold makeRoutingDecision
  rw [ha, hexact]
  exact ⟨rfl, rfl⟩

set_option maxRecDepth 20000 in
theorem getExactMatch_contact_variants_witness :
    getExactMatch "How can I contact Marvin?".toList = some matchContactMarvin ∧
    (makeRoutingDecision "How can I contact Marvin?".toList demoInScope).route =
      Route.exact ∧
    (makeRoutingDecision "How can I contact Marvin?".toList
      demoInScope).estimatedCost = 0 :=
  ⟨(getExactMatch_contact_variants "How can I contact Marvin?".toList (by decide)).1,
   ((getExactMatch_contact_variants "How can I contact Marvin?".toList
      (by decide)).2 demoInScope rfl).1,
   ((getExactMatch_contact_variants "How can I contact Marvin?".toList
      (by decide)).2 demoInScope rfl).2⟩

/-! ### C5: the category-gate tie-break -/

theorem shouldUseCategory_false_of_close {top second : CategoryMatch}
    (rest : List CategoryMatch)
    (hclose : top.confidence - second.confidence ≤ 0.3)
    (threshold : ℚ) :
    shouldUseCategory (top :: second :: rest) threshold = false := by
  unfold shouldUseCategory
  have hlead : decide ((0.3 : ℚ) < top.confidence - second.confidence) = false :=
    decide_eq_false (not_lt.mpr hclose)
  simp only [hlead, Bool.and_false]

/-- C5: when the top two detected categories both reach the confidence
threshold but the leader's margin over the runner-up is at most 0.3,
`shouldUseCategory` rejects category routing, and the routing decision
(given no exact match and an inactive keyword gate) falls through to the
full search. -/
theorem categoryGate_tieBreak (confidenceThreshold : ℚ)
    (top second : CategoryMatch) (rest : List CategoryMatch)
    (htop : confidenceThreshold ≤ top.confidence)
    (hsecond : confidenceThreshold ≤ second.confidence)
    (hclose : top.confidence - second.confidence ≤ 0.3) :
    shouldUseCategory (top :: second :: rest) confidenceThreshold = false ∧
    ∀ (query : List Char) (analysis : QueryAnalysis),
      analysis.isPortfolioRelated = true →
      getExactMatch query = none →
      ¬(0 < analysis.extractedKeywords.length ∧ analysis.confidence < 0.4) →
      analysis.detectedCategories = top :: second :: rest →
      (makeRoutingDecision query analysis).route = Route.full := by
  refine ⟨shouldUseCategory_false_of_close rest hclose confidenceThreshold, ?_⟩
  intro query analysis ha hexact hkw hcat
  unfold makeRoutingDecision
  simp only [ha, Bool.not_true, Bool.false_eq_true, if_false, hexact,
    if_neg hkw, hcat, shouldUseCategory_false_of_close rest hclose 0.6]

def demoTieTop : CategoryMatch :=
  { category := "CONTACT".toList, confidence := 0.8, matchedTerms := [] }

def demoTieSecond : CategoryMatch :=
  { category := "SKILLS".toList, confidence := 0.7, matchedTerms := [] }

def demoTieAnalysis : QueryAnalysis :=
  { isPortfolioRelated := true
    detectedCategories := [demoTieTop, demoTieSecond], confidence := 1
    suggestedRoute := Route.full, extractedKeywords := []
    queryType := QueryType.general }

theorem categoryGate_tieBreak_witness :
    shouldUseCategory [demoTieTop, demoTieSecond] 0.6 = false ∧
    (makeRoutingDecision "zzz".toList demoTieAnalysis).route = Route.full :=
  ⟨(categoryGate_tieBreak 0.6 demoTieTop demoTieSecond [] (by decide) (by decide)
      (by decide)).1,
   (categoryGate_tieBreak 0.6 demoTieTop demoTieSecond [] (by decide) (by decide)
      (by decide)).2 "zzz".toList demoTieAnalysis rfl (by decide) (by decide) rfl⟩

/-! ### C7: the category-detection scoring contract -/

theorem detectEntry_eq_some (query : List Char) (cp : List Char × CatPattern)
    (cm : CategoryMatch) :
    detectEntry query cp = some cm ↔
      ((0 : ℚ) < (catRawScore query cp.2 : ℚ) * cp.2.weight ∧
       cm = { category := cp.1
              confidence :=
                min 1 ((catRawScore query cp.2 : ℚ) * cp.2.weight / 3)
              matchedTerms := catMatchedTerms query cp.2 }) := by
  simp only [detectEntry]
  split_ifs with hpos
  · constructor
    · intro h
      exact ⟨hpos, ((Option.some.injEq _ _).mp h).symm⟩
    · rintro ⟨-, rfl⟩
      rfl
  · constructor
    · intro h
      exact absurd h (by simp)
    · rintro ⟨hpos', -⟩
      exact absurd hpos' hpos

theorem mem_detectCategories (query : List Char) (cm : CategoryMatch) :
    cm ∈ detectCategories query ↔
      ∃ cp ∈ CATEGORY_PATTERNS,
        (0 : ℚ) < (catRawScore query cp.2 : ℚ) * cp.2.weight ∧
        cm = { category := cp.1
               confidence :=
                 min 1 ((catRawScore query cp.2 : ℚ) * cp.2.weight / 3)
               matchedTerms := catMatchedTerms query cp.2 } := by
  unfold detectCategories
  rw [mem_sortAsc, List.mem_filterMap]
  constructor
  · rintro ⟨cp, hcp, hf⟩
    exact ⟨cp, hcp, (detectEntry_eq_some query cp cm).mp hf⟩
  · rintro ⟨cp, hcp, hpos, hcm⟩
    exact ⟨cp, hcp, (detectEntry_eq_some query cp cm).mpr ⟨hpos, hcm⟩⟩

theorem catPatterns_nameInjective :
    ∀ x ∈ CATEGORY_PATTERNS, ∀ y ∈ CATEGORY_PATTERNS, x.1 = y.1 → x = y := by
  decide

/-- C7: `detectCategories` contains a category exactly when its weighted
score (one per matched keyword plus two per matched phrase, times the
static category weight) is strictly positive; every returned entry's
confidence is `min(1, score / 3)`, lying in `[0, 1]`; and the result is
sorted in descending confidence order. -/
theorem detectCategories_spec (query : List Char) :
    (∀ cp ∈ CATEGORY_PATTERNS,
      ((∃ cm ∈ detectCategories query, cm.category = cp.1) ↔
        (0 : ℚ) < (catRawScore query cp.2 : ℚ) * cp.2.weight) ∧
      (∀ cm ∈ detectCategories query, cm.category = cp.1 →
        cm.confidence = min 1 ((catRawScore query cp.2 : ℚ) * cp.2.weight / 3) ∧
        0 ≤ cm.confidence ∧ cm.confidence ≤ 1)) ∧
    (detectCategories query).Pairwise (fun a b => b.confidence ≤ a.confidence) := by
  constructor
  · intro cp hcp
    constructor
    · constructor
      · rintro ⟨cm, hcm, hcat⟩
        obtain ⟨cp', hcp', hpos, hcm_eq⟩ := (mem_detectCategories query cm).mp hcm
        have hname : cp'.1 = cp.1 := by
          subst hcm_eq
          exact hcat
        have : cp' = cp := catPatterns_nameInjective cp' hcp' cp hcp hname
        rw [← this]
        exact hpos
      · intro hpos
        exact ⟨_, (mem_detectCategories query _).mpr ⟨cp, hcp, hpos, rfl⟩, rfl⟩
    · intro cm hcm hcat
      obtain ⟨cp', hcp', hpos, hcm_eq⟩ := (mem_detectCategories query cm).mp hcm
      have hname : cp'.1 = cp.1 := by
        subst hcm_eq
        exact hcat
      have hsame : cp' = cp := catPatterns_nameInjective cp' hcp' cp hcp hname
      subst hsame
      subst hcm_eq
      refine ⟨rfl, ?_, min_le_left _ _⟩
      exact le_min (by norm_num) (le_of_lt (div_pos hpos (by norm_num)))
  · have hpw := pairwise_sortAsc (fun cm : CategoryMatch => -cm.confidence)
      (CATEGORY_PATTERNS.filterMap (detectEntry query))
    unfold detectCategories
    exact hpw.imp fun h => neg_le_neg_iff.mp h

theorem detectCategories_spec_witness :
    ((∃ cm ∈ detectCategories "what skills does marvin have".toList,
        cm.category = (CATEGORY_PATTERNS.get ⟨2, by decide⟩).1) ↔
      (0 : ℚ) < (catRawScore "what skills does marvin have".toList
          (CATEGORY_PATTERNS.get ⟨2, by decide⟩).2 : ℚ) *
        (CATEGORY_PATTERNS.get ⟨2, by decide⟩).2.weight) ∧
    (detectCategories "what skills does marvin have".toList).Pairwise
      (fun a b => b.confidence ≤ a.confidence) :=
  ⟨((detectCategories_spec "what skills does marvin have".toList).1
      (CATEGORY_PATTERNS.get ⟨2, by decide⟩)
      (CATEGORY_PATTERNS.get_mem 2 (by decide))).1,
   (detectCategories_spec "what skills does marvin have".toList).2⟩

/-! ## Document processor (`src/lib/documentProcessor.ts`)

`estimateTokenCount` comes from `src/lib/gemini.ts`
(`Math.ceil(text.length / 4)`, 0 for empty text).  The
`startIndex`/`endIndex` bookkeeping of `LabeledSection`, the
`extractSemanticKeywords` keyword list and the `categoryDistribution`
summary are not modelled: no claim mentions them and nothing else in the
pipeline reads them.  Scanners that jump past a matched token take an
explicit fuel argument (initialized to the input length, which each step
strictly decreases below) so that all definitions stay structurally
recursive and kernel-evaluable. -/

def estimateTokenCount (s : List Char) : ℕ :=
  (s.length + 3) / 4

/-- The regex class `[A-Z_]` of a section label. -/
def isLabelChar (c : Char) : Bool :=
  ('A' ≤ c && c ≤ 'Z') || c = '_'

/-- Try to read `\[([A-Z_]+)\]` at the head of the input: an opening
bracket, a non-empty maximal run of label characters, and a closing
bracket (the regex cannot match a shorter run, since `]` is not a label
character).  Returns the captured label and the input after `]`. -/
def tryLabel : List Char → Option (List Char × List Char)
  | '[' :: rest =>
    let run := rest.takeWhile isLabelChar
    match rest.dropWhile isLabelChar with
    | ']' :: tail => if run.isEmpty then none else some (run, tail)
    | _ => none
  | _ => none

/-- All captures of the global regex `/\[([A-Z_]+)\]/g` (no boundary
requirement), as used by `validateDocumentFormat`. -/
def scanAllLabelsF : ℕ → List Char → List (List Char)
  | 0, _ => []
  | _ + 1, [] => []
  | fuel + 1, c :: cs =>
    if c = '[' then
      match tryLabel (c :: cs) with
      | some (lab, rest) => lab :: scanAllLabelsF fuel rest
      | none => scanAllLabelsF fuel cs
    else scanAllLabelsF fuel cs

def scanAllLabels (s : List Char) : List (List Char) :=
  scanAllLabelsF s.length s

/-- One token of the document: either a raw character or a matched
`(?:^|\s)\[([A-Z_]+)\]` label (the leading `^`/`\s` boundary is tracked
by the `atBoundary` flag; the boundary character itself stays raw, as the
next section's content ends at the `[` of the following label). -/
def tokenizeLabelsF : ℕ → Bool → List Char → List (Sum Char (List Char))
  | 0, _, rest => rest.map Sum.inl
  | _ + 1, _, [] => []
  | fuel + 1, atBoundary, c :: cs =>
    if atBoundary && (c = '[') then
      match tryLabel (c :: cs) with
      | some (lab, rest) => Sum.inr lab :: tokenizeLabelsF fuel false rest
      | none => Sum.inl c :: tokenizeLabelsF fuel (isWSChar c) cs
    else Sum.inl c :: tokenizeLabelsF fuel (isWSChar c) cs

/-- Regroup the token stream: the text before the first label is
discarded (it belongs to no section), and each label owns the raw text up
to the next label or the end of the document. -/
def groupSections : List (Sum Char (List Char)) →
    List Char × List (List Char × List Char)
  | [] => ([], [])
  | t :: ts =>
    let (cur, secs) := groupSections ts
    match t with
    | Sum.inl c => (c :: cur, secs)
    | Sum.inr lab => ([], (lab, cur) :: secs)

structure LabeledSection where
  label : List Char
  content : List Char
deriving DecidableEq

/-- `extractLabeledSections(document)`: find every boundary-anchored
label and keep the sections whose trimmed content is non-empty. -/
def extractLabeledSections (document : List Char) : List LabeledSection :=
  (groupSections (tokenizeLabelsF document.length true document)).2.filterMap
    (fun lc =>
      let content := trimWS lc.2
      if content.isEmpty then none
      else some { label := lc.1, content := content })

/-- The `LABEL_CATEGORY_MAP` table. -/
def LABEL_CATEGORY_MAP : List (List Char × List Char) :=
  [("BIO", "BIO"), ("ABOUT", "BIO"), ("BACKGROUND", "BIO"),
   ("PERSONAL", "BIO"), ("INTRO", "BIO"), ("INTRODUCTION", "BIO"),
   ("CONTACT", "CONTACT"), ("REACH", "CONTACT"), ("EMAIL", "CONTACT"),
   ("PHONE", "CONTACT"), ("SOCIAL", "CONTACT"), ("LINKEDIN", "CONTACT"),
   ("GITHUB", "CONTACT"),
   ("EDUCATION", "EDUCATION"), ("SCHOOL", "EDUCATION"),
   ("COLLEGE", "EDUCATION"), ("UNIVERSITY", "EDUCATION"),
   ("DEGREE", "EDUCATION"), ("ACADEMIC", "EDUCATION"),
   ("EXPERIENCE", "EXPERIENCE"), ("WORK", "EXPERIENCE"),
   ("JOB", "EXPERIENCE"), ("EMPLOYMENT", "EXPERIENCE"),
   ("CAREER", "EXPERIENCE"), ("INTERN", "EXPERIENCE"),
   ("INTERNSHIP", "EXPERIENCE"),
   ("SKILLS", "SKILLS"), ("TECHNICAL", "SKILLS"), ("TECH", "SKILLS"),
   ("PROGRAMMING", "SKILLS"), ("LANGUAGES", "SKILLS"),
   ("TOOLS", "SKILLS"), ("TECHNOLOGIES", "SKILLS"),
   ("PROJECTS", "PROJECTS"), ("PROJECT", "PROJECTS"),
   ("BUILD", "PROJECTS"), ("CREATED", "PROJECTS"),
   ("DEVELOPED", "PROJECTS"), ("PORTFOLIO", "PROJECTS"),
   ("ACHIEVEMENTS", "ACHIEVEMENTS"), ("AWARDS", "ACHIEVEMENTS"),
   ("HONORS", "ACHIEVEMENTS"), ("RECOGNITION", "ACHIEVEMENTS"),
   ("ACCOMPLISHMENTS", "ACHIEVEMENTS"),
   ("LEADERSHIP", "LEADERSHIP"), ("LEAD", "LEADERSHIP"),
   ("VOLUNTEER", "LEADERSHIP"), ("ORGANIZATIONS", "LEADERSHIP"),
   ("ACTIVITIES", "LEADERSHIP"),
   ("INTERESTS", "INTERESTS"), ("HOBBIES", "INTERESTS"),
   ("PERSONAL_INTERESTS", "INTERESTS"), ("OUTSIDE_WORK", "INTERESTS")
  ].map (fun e => (e.1.toList, e.2.toList))

/-- `mapLabelToCategory(label)`: uppercase, trim, table lookup, `null`
for the empty label or an unknown one. -/
def mapLabelToCategory (label : List Char) : Option (List Char) :=
  if label.isEmpty then none
  else List.lookup (trimWS (label.map Char.toUpper)) LABEL_CATEGORY_MAP

/-- `HIGH_PRIORITY_LABELS`. -/
def HIGH_PRIORITY_LABELS : List (List Char) :=
  ["BIO", "ABOUT", "SKILLS", "EXPERIENCE", "PROJECTS",
   "CONTACT"].map String.toList

def isSentencePunct (c : Char) : Bool :=
  c = '.' || c = '!' || c = '?'

/-- `getLastWords(text, tokenCount)`: the last
`Math.ceil(tokenCount / 1.3)` whitespace-separated words of the trimmed
text (`⌈10·n/13⌉ = (10·n + 12) / 13` in integer arithmetic), or the whole
text when it is short enough. -/
def getLastWords (text : List Char) (tokenCount : ℕ) : List Char :=
  if text.isEmpty || tokenCount = 0 then []
  else
    let words := splitRuns isWSChar (trimWS text)
    let wordCount := (10 * tokenCount + 12) / 13
    if words.length ≤ wordCount then text
    else List.intercalate [' '] (words.drop (words.length - wordCount))

/-- One step of the sentence-packing loop of `createOptimalChunks`,
acting on the state `(finished chunks, current chunk, current tokens)`. -/
def chunkStep (maxSize overlap : ℕ)
    (st : List (List Char) × List Char × ℕ) (sentence : List Char) :
    List (List Char) × List Char × ℕ :=
  let sentenceTokens := estimateTokenCount sentence
  if maxSize < st.2.2 + sentenceTokens ∧ 0 < st.2.1.length then
    let nextChunk := getLastWords st.2.1 overlap ++ ' ' :: sentence
    (st.1 ++ [trimWS st.2.1], nextChunk, estimateTokenCount nextChunk)
  else
    let nextChunk := st.2.1 ++ (if st.2.1.isEmpty then [] else ". ".toList) ++
      sentence
    (st.1, nextChunk, st.2.2 + sentenceTokens)

/-- `createOptimalChunks(content, maxSize, overlap, minSize)`: small
content stays whole; otherwise pack sentences (split on `/[.!?]+/`) up to
`maxSize` tokens with a trailing-word overlap, keep the final chunk only
when it reaches `minSize`, and fall back to the whole trimmed content if
nothing was produced. -/
def createOptimalChunks (content : List Char)
    (maxSize overlap minSize : ℕ) : List (List Char) :=
  if (trimWS content).isEmpty then []
  else if estimateTokenCount content ≤ maxSize then [trimWS content]
  else
    let sentences := (splitRuns isSentencePunct content).filter
      (fun s => !(trimWS s).isEmpty)
    let st := sentences.foldl (chunkStep maxSize overlap) ([], [], 0)
    let chunks :=
      if ¬(trimWS st.2.1).isEmpty ∧ minSize ≤ estimateTokenCount st.2.1 then
        st.1 ++ [trimWS st.2.1]
      else st.1
    if chunks.isEmpty then [trimWS content] else chunks

structure ProcessingOptions where
  maxChunkSize : ℕ
  chunkOverlap : ℕ
  minChunkSize : ℕ
  prioritySections : List (List Char)
  sourceFile : List Char

/-- The `storeChunks` parameters produced per chunk (the
`extractSemanticKeywords` list is not modelled). -/
structure StoreChunkParams where
  content : List Char
  category : List Char
  subcategory : List Char
  importance_score : ℚ
  source_file : List Char
deriving DecidableEq

structure ProcessingResult where
  chunks : List StoreChunkParams
  totalChunks : ℕ
  totalTokens : ℕ
  processingErrors : List (List Char)
deriving DecidableEq

/-- The per-section body of the `processLabeledDocument` loop: map the
label to a category (recording an error for unknown labels), chunk the
content, and keep each chunk whose token estimate reaches
`minChunkSize` — note that the `tokenCount < minChunkSize` skip applies
to a section's sole chunk as well.  Returns (chunks, tokens, errors). -/
def processSection (opts : ProcessingOptions) (sec : LabeledSection) :
    List StoreChunkParams × ℕ × List (List Char) :=
  match mapLabelToCategory sec.label with
  | none => ([], 0, ["Unknown label: ".toList ++ sec.label])
  | some category =>
    let allPriorityLabels := HIGH_PRIORITY_LABELS ++ opts.prioritySections
    let importanceScore : ℚ :=
      if allPriorityLabels.contains (sec.label.map Char.toUpper) then 1.5
      else 1.0
    let sectionChunks := createOptimalChunks sec.content
      opts.maxChunkSize opts.chunkOverlap opts.minChunkSize
    let kept := sectionChunks.enum.filterMap (fun ic =>
      let tokenCount := estimateTokenCount ic.2
      if tokenCount < opts.minChunkSize then none
      else
        some (({ content := trimWS ic.2
                 category := category
                 subcategory :=
                   if 1 < sectionChunks.length then
                     (sec.label.map Char.toLower) ++ "_part_".toList ++
                       Nat.toDigits 10 (ic.1 + 1)
                   else sec.label.map Char.toLower
                 importance_score := importanceScore
                 source_file := opts.sourceFile } : StoreChunkParams),
              tokenCount))
    (kept.map Prod.fst, (kept.map (fun kc => kc.2)).sum, [])

/-- `processLabeledDocument(document, options)`: fail outright when no
labeled section is found, otherwise process every section, collecting
chunks, the total token estimate of the kept chunks, and the per-section
errors. -/
def processLabeledDocument (document : List Char)
    (opts : ProcessingOptions) : Except (List Char) ProcessingResult :=
  let sections := extractLabeledSections document
  if sections.isEmpty then
    Except.error
      "No labeled sections found in document. Expected format: [LABEL] content".toList
  else
    let acc := sections.foldl
      (fun acc sec =>
        let r := processSection opts sec
        (acc.1 ++ r.1, acc.2.1 + r.2.1, acc.2.2 ++ r.2.2))
      (([], 0, []) : List StoreChunkParams × ℕ × List (List Char))
    Except.ok { chunks := acc.1, totalChunks := acc.1.length
                totalTokens := acc.2.1, processingErrors := acc.2.2 }

/-- The document of the module's own `testDocumentProcessor` test. -/
def demoTestDocument : List Char :=
  ("\n[BIO]\nMarvin Romero is a software developer.\n\n[SKILLS]\n" ++
   "JavaScript, React, Node.js\n\n[CONTACT]\nEmail: test@example.com\n    ").toList

/-- The options of `testDocumentProcessor`: `maxChunkSize: 100` with the
defaults `chunkOverlap = 50`, `minChunkSize = 50`. -/
def demoTestOptions : ProcessingOptions :=
  { maxChunkSize := 100, chunkOverlap := 50, minChunkSize := 50
    prioritySections := [], sourceFile := "test_document".toList }

set_option maxRecDepth 400000 in
/-- C6: the sole-chunk exception does not exist in the code.  On the
module's own test document, all three sections are found and each yields
exactly one (undersized) chunk from `createOptimalChunks`, yet
`processLabeledDocument` drops every one of them via its unconditional
`tokenCount < minChunkSize` skip and returns zero chunks — the module's
own `testDocumentProcessor` check (`result.chunks.length > 0`) fails on
this outcome. -/
theorem processLabeledDocument_drops_sole_small_chunk :
    (extractLabeledSections demoTestDocument).map LabeledSection.label =
      ["BIO", "SKILLS", "CONTACT"].map String.toList ∧
    createOptimalChunks "Marvin Romero is a software developer.".toList
      100 50 50 = ["Marvin Romero is a software developer.".toList] ∧
    estimateTokenCount "Marvin Romero is a software developer.".toList < 50 ∧
    processLabeledDocument demoTestDocument demoTestOptions =
      Except.ok { chunks := [], totalChunks := 0, totalTokens := 0
                  processingErrors := [] } := by
  refine ⟨by decide, by decide, by decide, ?_⟩
  rfl

/-! ## Ingestion format validation (`validateDocumentFormat`) -/

/-- The distinct error messages of `validateDocumentFormat`, one
constructor per message template. -/
inductive DocError
  | emptyDoc
  | noLabels
  | missingSection (label : List Char)
deriving DecidableEq

structure DocValidation where
  isValid : Bool
  errors : List DocError
deriving DecidableEq

def requiredLabels : List (List Char) :=
  ["BIO", "CONTACT", "SKILLS"].map String.toList

/-- `validateDocumentFormat(document)`: an empty document short-circuits
with only the `emptyDoc` error; otherwise report `noLabels` when the
label regex has no match, and one `missingSection` error per required
label absent from the matched label set; valid iff no error. -/
def validateDocumentFormat (document : List Char) : DocValidation :=
  if (trimWS document).isEmpty then
    { isValid := false, errors := [DocError.emptyDoc] }
  else
    let found := scanAllLabels document
    let labelErrors := if found.isEmpty then [DocError.noLabels] else []
    let missingErrors :=
      (requiredLabels.filter (fun l => !(found.contains l))).map
        DocError.missingSection
    let errors := labelErrors ++ missingErrors
    { isValid := errors.isEmpty, errors := errors }

/-- C8 counterexample: the empty document is missing all three required
sections and is reported invalid, but the itemized `missingSection`
errors are not produced — the empty-document check short-circuits. -/
theorem validateDocumentFormat_missing_counterexample :
    (validateDocumentFormat "".toList).isValid = false ∧
    "BIO".toList ∉ scanAllLabels "".toList ∧
    DocError.missingSection "BIO".toList ∉
      (validateDocumentFormat "".toList).errors := by
  decide

/-- Occurrence count of an error in an error list (the "one itemized
error per missing section" reading of the error list). -/
def countErr (e : DocError) : List DocError → ℕ
  | [] => 0
  | x :: xs => (if x = e then 1 else 0) + countErr e xs

/-- Occurrence count of a label in a label list. -/
def countLbl (a : List Char) : List (List Char) → ℕ
  | [] => 0
  | x :: xs => (if x = a then 1 else 0) + countLbl a xs

theorem countErr_append (e : DocError) (l1 l2 : List DocError) :
    countErr e (l1 ++ l2) = countErr e l1 + countErr e l2 := by
  induction l1 with
  | nil => simp [countErr]
  | cons x xs ih => simp [countErr, ih, Nat.add_assoc]

theorem countErr_missing_map (l : List Char) (L : List (List Char)) :
    countErr (DocError.missingSection l) (L.map DocError.missingSection) =
      countLbl l L := by
  induction L with
  | nil => rfl
  | cons x xs ih =>
    simp only [List.map_cons, countErr, countLbl, ih,
      DocError.missingSection.injEq]

theorem countLbl_filter_pos {p : List Char → Bool} {l : List Char}
    (hp : p l = true) (L : List (List Char)) :
    countLbl l (L.filter p) = countLbl l L := by
  induction L with
  | nil => rfl
  | cons x xs ih =>
    by_cases hx : p x
    · rw [List.filter_cons_of_pos hx]
      simp only [countLbl, ih]
    · rw [List.filter_cons_of_neg hx]
      have hxl : ¬(x = l) := fun he => hx (he ▸ hp)
      simp only [countLbl, ih, hxl, if_false, Nat.zero_add]

theorem countLbl_filter_neg {p : List Char → Bool} {l : List Char}
    (hp : p l = false) (L : List (List Char)) :
    countLbl l (L.filter p) = 0 := by
  induction L with
  | nil => rfl
  | cons x xs ih =>
    by_cases hx : p x
    · rw [List.filter_cons_of_pos hx]
      have hxl : ¬(x = l) := fun he => by
        rw [he, hp] at hx
        exact Bool.false_ne_true hx
      simp only [countLbl, ih, hxl, if_false, Nat.zero_add]
    · rw [List.filter_cons_of_neg hx]
      exact ih

/-- C8 (amended): for every non-empty document, the validator reports
exactly one `missingSection` error for each required section absent from
the document's labels and none for a present one, and it is invalid
whenever some required section is missing.  (The empty document instead
short-circuits with only the `emptyDoc` error.) -/
theorem validateDocumentFormat_missing_sections (document : List Char)
    (hne : (trimWS document).isEmpty = false) :
    (∀ l ∈ requiredLabels,
      countErr (DocError.missingSection l)
          (validateDocumentFormat document).errors =
        if l ∈ scanAllLabels document then 0 else 1) ∧
    ((∃ l ∈ requiredLabels, l ∉ scanAllLabels document) →
      (validateDocumentFormat document).isValid = false) := by
  have hmain : validateDocumentFormat document =
      { isValid := ((if (scanAllLabels document).isEmpty then
            [DocError.noLabels] else []) ++
          (requiredLabels.filter
            (fun l => !((scanAllLabels document).contains l))).map
            DocError.missingSection).isEmpty
        errors := (if (scanAllLabels document).isEmpty then
            [DocError.noLabels] else []) ++
          (requiredLabels.filter
            (fun l => !((scanAllLabels document).contains l))).map
            DocError.missingSection } := by
    unfold validateDocumentFormat
    rw [hne]
    rfl
  constructor
  · intro l hl
    rw [hmain]
    simp only [countErr_append]
    have hzero : countErr (DocError.missingSection l)
        (if (scanAllLabels document).isEmpty then [DocError.noLabels]
         else []) = 0 := by
      split_ifs <;> simp [countErr]
    rw [hzero, Nat.zero_add, countErr_missing_map]
    have hone : countLbl l requiredLabels = 1 := by
      fin_cases hl <;> decide
    by_cases hmem : l ∈ scanAllLabels document
    · rw [if_pos hmem]
      exact countLbl_filter_neg (by simp [hmem]) _
    · rw [if_neg hmem, countLbl_filter_pos (by simp [hmem]) requiredLabels]
      exact hone
  · rintro ⟨l, hl, hmiss⟩
    rw [hmain]
    have hmem : DocError.missingSection l ∈
        (requiredLabels.filter
          (fun x => !((scanAllLabels document).contains x))).map
          DocError.missingSection :=
      List.mem_map_of_mem DocError.missingSection
        (List.mem_filter.mpr ⟨hl, by simp [hmiss]⟩)
    have hmem2 : DocError.missingSection l ∈
        ((if (scanAllLabels document).isEmpty then [DocError.noLabels]
          else []) ++
         (requiredLabels.filter
           (fun x => !((scanAllLabels document).contains x))).map
           DocError.missingSection) :=
      List.mem_append.mpr (Or.inr hmem)
    cases hEmpty : ((if (scanAllLabels document).isEmpty then
        [DocError.noLabels] else []) ++
      (requiredLabels.filter
        (fun x => !((scanAllLabels document).contains x))).map
        DocError.missingSection).isEmpty
    · rfl
    · exfalso
      rw [List.isEmpty_iff.mp hEmpty] at hmem2
      exact absurd hmem2 (List.not_mem_nil _)

theorem validateDocumentFormat_missing_sections_witness :
    countErr (DocError.missingSection "CONTACT".toList)
        (validateDocumentFormat "[BIO] hi [EXPERIENCE] x".toList).errors = 1 ∧
    (validateDocumentFormat "[BIO] hi [EXPERIENCE] x".toList).isValid = false :=
  ⟨by
    have h := (validateDocumentFormat_missing_sections
      "[BIO] hi [EXPERIENCE] x".toList (by decide)).1
      "CONTACT".toList (by decide)
    rwa [if_neg (by decide)] at h,
   (validateDocumentFormat_missing_sections
      "[BIO] hi [EXPERIENCE] x".toList (by decide)).2
     ⟨"CONTACT".toList, by decide, by decide⟩⟩

/-! ## Completion post-processing (`src/app/api/chat/route.js`)

`formatLinksInResponse` strips markup from the model output in stages:
complete `<...>` tags, attribute assignments in three quoting styles,
the characters `<>"'` themselves, HTML entities, and finally whitespace
collapsing.  Each global-regex pass is modelled as a left-to-right
scanner; scanners that jump past a match take a fuel argument
(initialized to the input length, an upper bound on the number of steps)
to stay structurally recursive. -/

/-- The apostrophe character (code point 39). -/
def squoteChar : Char := Char.ofNat 39

/-- `/<[^>]*>/g`: a match runs from a `<` to the first following `>`;
a `<` with no later `>` never matches and is kept. -/
def removeTagsF : ℕ → List Char → List Char
  | 0, s => s
  | _ + 1, [] => []
  | fuel + 1, c :: cs =>
    if c = '<' && cs.contains '>' then
      removeTagsF fuel ((cs.dropWhile (fun d => !(d == '>'))).tail)
    else c :: removeTagsF fuel cs

def removeTags (s : List Char) : List Char :=
  removeTagsF s.length s

/-- The attribute-name alternation `(href|target|rel|style|class|id)`,
in source order. -/
def attrNames : List (List Char) :=
  ["href", "target", "rel", "style", "class", "id"].map String.toList

/-- Case-insensitive match of one of the attribute names at the head of
the input (the `i` flag of the attribute regexes); returns the rest. -/
def stripAttrName (s : List Char) : Option (List Char) :=
  (attrNames.find? (fun n => (s.take n.length).map Char.toLower == n)).map
    (fun n => s.drop n.length)

inductive AttrQuote
  | dquote
  | squote
  | bare

/-- One attempted match of `\s*(href|…)\s*=\s*VALUE` at the head of the
input, where `VALUE` is `"[^"]*"`, `'[^']*'` or `[^\s"'>]*` according to
the pass; returns the input after the match. -/
def tryAttr (kind : AttrQuote) (s : List Char) : Option (List Char) :=
  match stripAttrName (s.dropWhile isWSChar) with
  | none => none
  | some s2 =>
    match s2.dropWhile isWSChar with
    | '=' :: s4 =>
      let s5 := s4.dropWhile isWSChar
      match kind with
      | AttrQuote.dquote =>
        match s5 with
        | '"' :: s6 =>
          match s6.dropWhile (fun d => !(d == '"')) with
          | '"' :: s7 => some s7
          | _ => none
        | _ => none
      | AttrQuote.squote =>
        match s5 with
        | q :: s6 =>
          if q = squoteChar then
            match s6.dropWhile (fun d => !(d == squoteChar)) with
            | q2 :: s7 => if q2 = squoteChar then some s7 else none
            | _ => none
          else none
        | _ => none
      | AttrQuote.bare =>
        some (s5.dropWhile (fun d =>
          !(isWSChar d || d == '"' || d == squoteChar || d == '>')))
    | _ => none

/-- One global attribute-stripping pass. -/
def removeAttrF (kind : AttrQuote) : ℕ → List Char → List Char
  | 0, s => s
  | _ + 1, [] => []
  | fuel + 1, c :: cs =>
    match tryAttr kind (c :: cs) with
    | some rest => removeAttrF kind fuel rest
    | none => c :: removeAttrF kind fuel cs

def removeAttrs (kind : AttrQuote) (s : List Char) : List Char :=
  removeAttrF kind s.length s

/-- The character class `[a-zA-Z0-9#]` of the entity regex. -/
def isEntityChar (c : Char) : Bool :=
  c.isAlpha || c.isDigit || c = '#'

/-- One attempted match of `&[a-zA-Z0-9#]+;` at the head of the input
(the name run is maximal, since `;` is not an entity character). -/
def tryEntity : List Char → Option (List Char)
  | [] => none
  | c :: rest =>
    if c = '&' then
      match rest.dropWhile isEntityChar with
      | ';' :: tail =>
        if (rest.takeWhile isEntityChar).isEmpty then none else some tail
      | _ => none
    else none

/-- The single left-to-right pass of `replace(/&[a-zA-Z0-9#]+;/g, '')`:
non-overlapping matches of the original string are removed; the leftover
pieces are concatenated and never rescanned. -/
def removeEntitiesF : ℕ → List Char → List Char
  | 0, s => s
  | _ + 1, [] => []
  | fuel + 1, c :: cs =>
    match tryEntity (c :: cs) with
    | some rest => removeEntitiesF fuel rest
    | none => c :: removeEntitiesF fuel cs

def removeEntities (s : List Char) : List Char :=
  removeEntitiesF s.length s

/-- The character class `[<>"']` removed wholesale. -/
def badChar (c : Char) : Bool :=
  c = '<' || c = '>' || c = '"' || c = squoteChar

/-- `formatLinksInResponse(text)`: strip complete tags, then the three
attribute patterns, then every `<>"'` character, then HTML entities, and
finally collapse whitespace runs and trim. -/
def formatLinksInResponse (text : List Char) : List Char :=
  let t1 := removeTags text
  let t2 := removeAttrs AttrQuote.dquote t1
  let t3 := removeAttrs AttrQuote.squote t2
  let t4 := removeAttrs AttrQuote.bare t3
  let t5 := t4.filter (fun c => !(badChar c))
  let t6 := removeEntities t5
  trimWS (collapseWS t6)

/-- C9 counterexample: entity removal is a single pass over the original
string, so removing `&amp;` from `&&amp;x;` concatenates the leftover
`&` with `x;` into `&x;` — an HTML entity of the form `&name;` in the
final output (`tryEntity` recognises the whole output as one). -/
theorem formatLinksInResponse_entity_counterexample :
    formatLinksInResponse "&&amp;x;".toList = "&x;".toList ∧
    tryEntity (formatLinksInResponse "&&amp;x;".toList) = some [] := by
  constructor
  · decide
  · decide

theorem mem_of_mem_trimWS {s : List Char} {c : Char} (h : c ∈ trimWS s) :
    c ∈ s := by
  unfold trimWS at h
  have h1 := List.mem_reverse.mp h
  have h2 := mem_of_mem_dropWhile h1
  exact mem_of_mem_dropWhile (List.mem_reverse.mp h2)

theorem mem_of_mem_collapseWSGo {b : Bool} {s : List Char} {c : Char}
    (h : c ∈ collapseWSGo b s) : c ∈ s ∨ c = ' ' := by
  induction s generalizing b with
  | nil => cases b <;> simp [collapseWSGo] at h
  | cons x xs ih =>
    by_cases hx : isWSChar x
    · simp only [collapseWSGo, hx, if_pos] at h
      cases b with
      | true =>
        rcases ih h with hmem | hsp
        · exact Or.inl (List.mem_cons_of_mem x hmem)
        · exact Or.inr hsp
      | false =>
        rcases List.mem_cons.mp h with rfl | h
        · exact Or.inr rfl
        · rcases ih h with hmem | hsp
          · exact Or.inl (List.mem_cons_of_mem x hmem)
          · exact Or.inr hsp
    · simp only [collapseWSGo, hx, if_neg, Bool.false_eq_true] at h
      rcases List.mem_cons.mp h with rfl | h
      · exact Or.inl (List.mem_cons_self _ _)
      · rcases ih h with hmem | hsp
        · exact Or.inl (List.mem_cons_of_mem x hmem)
        · exact Or.inr hsp

theorem mem_of_tryEntity {s r : List Char} {c : Char}
    (h : tryEntity s = some r) (hc : c ∈ r) : c ∈ s := by
  cases s with
  | nil => exact absurd h (by simp [tryEntity])
  | cons x rest =>
    simp only [tryEntity] at h
    by_cases hx : x = '&'
    · rw [if_pos hx] at h
      split at h
      · next tail heq =>
        by_cases hrun : (rest.takeWhile isEntityChar).isEmpty
        · rw [if_pos hrun] at h
          exact absurd h (by simp)
        · rw [if_neg hrun] at h
          have hr : r = tail := (Option.some.injEq _ _).mp h.symm
          subst hr
          have hmem : c ∈ rest.dropWhile isEntityChar := by
            rw [heq]
            exact List.mem_cons_of_mem _ hc
          exact List.mem_cons_of_mem _ (mem_of_mem_dropWhile hmem)
      · exact absurd h (by simp)
    · rw [if_neg hx] at h
      exact absurd h (by simp)

theorem mem_of_mem_removeEntitiesF {fuel : ℕ} {s : List Char} {c : Char}
    (h : c ∈ removeEntitiesF fuel s) : c ∈ s := by
  induction fuel generalizing s with
  | zero => exact h
  | succ fuel ih =>
    match s with
    | [] => exact absurd h (List.not_mem_nil c)
    | x :: xs =>
      simp only [removeEntitiesF] at h
      split at h
      · next rest heq => exact mem_of_tryEntity heq (ih h)
      · rcases List.mem_cons.mp h with rfl | h
        · exact List.mem_cons_self _ _
        · exact List.mem_cons_of_mem x (ih h)

/-- C9 (amended): the post-processed completion output contains none of
the characters `<`, `>`, `"`, `'` — hence in particular no complete tag
and no attribute fragment `attr=` with a quoted value — for every input.
(HTML entities are removed only in a single pass over the text as it
stands at that stage, and a residual `&name;` can arise by
recombination, as the counterexample shows.) -/
theorem formatLinksInResponse_no_markup (text : List Char) :
    (∀ c ∈ formatLinksInResponse text,
      c ≠ '<' ∧ c ≠ '>' ∧ c ≠ '"' ∧ c ≠ squoteChar) ∧
    (∀ attr ∈ attrNames, ∀ q : Char, q = '"' ∨ q = squoteChar →
      ∀ v : List Char,
        occursIn (attr ++ '=' :: q :: (v ++ [q]))
          (formatLinksInResponse text) = false) := by
  have hchar : ∀ c ∈ formatLinksInResponse text,
      c ≠ '<' ∧ c ≠ '>' ∧ c ≠ '"' ∧ c ≠ squoteChar := by
    intro c hc
    unfold formatLinksInResponse at hc
    have h1 := mem_of_mem_trimWS hc
    rcases mem_of_mem_collapseWSGo h1 with h2 | h2
    · have h3 := mem_of_mem_removeEntitiesF h2
      have h4 := (List.mem_filter.mp h3).2
      simp only [badChar, Bool.not_eq_true', Bool.or_eq_false_iff,
        decide_eq_false_iff_not] at h4
      exact ⟨h4.1.1.1, h4.1.1.2, h4.1.2, h4.2⟩
    · subst h2
      refine ⟨?_, ?_, ?_, ?_⟩ <;> decide
  refine ⟨hchar, ?_⟩
  intro attr _ q hq v
  cases hocc : occursIn (attr ++ '=' :: q :: (v ++ [q]))
      (formatLinksInResponse text)
  · rfl
  · exfalso
    have hqmem : q ∈ attr ++ '=' :: q :: (v ++ [q]) :=
      List.mem_append.mpr (Or.inr (List.mem_cons_of_mem _
        (List.mem_cons_self _ _)))
    have hqout := mem_of_occursIn hocc q hqmem
    rcases hq with rfl | rfl
    · exact (hchar _ hqout).2.2.1 rfl
    · exact (hchar _ hqout).2.2.2 rfl

theorem formatLinksInResponse_no_markup_witness :
    occursIn ("href".toList ++ '=' :: '"' :: ("x".toList ++ ['"']))
      (formatLinksInResponse
        "Reach me <a href=\"https://x.test\" target=\"_blank\">here</a> &amp; there".toList) =
      false :=
  (formatLinksInResponse_no_markup
    "Reach me <a href=\"https://x.test\" target=\"_blank\">here</a> &amp; there".toList).2
    "href".toList (by decide) '"' (Or.inl rfl) "x".toList

end Portfolio
